import Mathlib

/-!
Verification of the safe-kit client library: a shallow embedding of its
transaction-construction, signature-aggregation and batch-encoding core
(`safe_kit/types.py`, `safe_kit/multisend.py`, `safe_kit/safe.py`,
`safe_kit/factory.py`, `safe_kit/adapter.py`), together with theorems
settling the specification's claims about it.

Bytes are modelled as `List Nat` (each element a byte value `< 256`),
Python's unbounded `int` as `Int` (or `Nat` where the source guarantees
non-negativity), Python `dict` as an insertion-ordered association list,
and fallible code as `Except String` / `Option`.
-/

set_option maxRecDepth 2000

namespace SafeKit

/-! ## Hex / byte primitives

Models of the `hexbytes.HexBytes` conversions and of Python's
`int(s, 16)` and `int.to_bytes(width, "big")` used by the library. -/

/-- Value of a single hexadecimal digit character, `none` for a non-hex
character (where Python's decoding raises). -/
def hexDigitVal? (c : Char) : Option Nat :=
  if '0' ≤ c ∧ c ≤ '9' then some (c.toNat - '0'.toNat)
  else if 'a' ≤ c ∧ c ≤ 'f' then some (c.toNat - 'a'.toNat + 10)
  else if 'A' ≤ c ∧ c ≤ 'F' then some (c.toNat - 'A'.toNat + 10)
  else none

/-- Strip an optional leading `0x` / `0X` from a character list, as both
`HexBytes(...)` and Python's `int(s, 16)` accept. -/
def strip0x : List Char → List Char
  | '0' :: 'x' :: rest => rest
  | '0' :: 'X' :: rest => rest
  | l => l

/-- Decode pairs of hex digits into bytes; `none` on a non-hex digit or an
odd number of digits (where `HexBytes` raises `ValueError`). -/
def hexPairsToBytes? : List Char → Option (List Nat)
  | [] => some []
  | [_] => none
  | hi :: lo :: rest => do
      let h ← hexDigitVal? hi
      let l ← hexDigitVal? lo
      let bs ← hexPairsToBytes? rest
      pure ((16 * h + l) :: bs)

/-- Model of `HexBytes(s)` for a string `s`: optional `0x` prefix, then an
even number of hex digits; `none` where the Python constructor raises. -/
def hexDecode? (s : String) : Option (List Nat) :=
  hexPairsToBytes? (strip0x s.data)

/-- Model of Python's `int(s, 16)` on a valid hexadecimal string (optional
`0x` prefix, case-insensitive digits).  On strings containing a non-hex
character — where `int(s, 16)` raises `ValueError`, a case the library
never reaches because keys are hex addresses — the digit contributes 0. -/
def hexStrToNat (s : String) : Nat :=
  (strip0x s.data).foldl (fun acc c => 16 * acc + (hexDigitVal? c).getD 0) 0

/-- Model of `n.to_bytes(width, byteorder="big")` for `0 ≤ n < 256^width`:
big-endian fixed-width byte list. -/
def natToBE : Nat → Nat → List Nat
  | 0, _ => []
  | width + 1, n => natToBE width (n / 256) ++ [n % 256]

/-- Big-endian byte list to the natural number it denotes
(`int.from_bytes(l, "big")`). -/
def beToNat : List Nat → Nat
  | [] => 0
  | b :: bs => b * 256 ^ bs.length + beToNat bs

/-! ## Data model (`safe_kit/types.py`)

`SafeTransactionData` (types.py lines 21-37) and `SafeTransaction`
(types.py lines 81-101).  Python's unbounded `int` fields become `Int`;
the `dict[str, str]` signature map becomes an insertion-ordered
association list with Python-`dict` update semantics. -/

structure SafeTransactionData where
  «to» : String
  value : Int
  data : String
  operation : Int := 0
  safe_tx_gas : Int := 0
  base_gas : Int := 0
  gas_price : Int := 0
  gas_token : String := "0x0000000000000000000000000000000000000000"
  refund_receiver : String := "0x0000000000000000000000000000000000000000"
  nonce : Option Int := none
  deriving Repr, DecidableEq

/-- Python `dict` assignment `d[k] = v`: if `k` is already a key, replace
its value in place (insertion position kept); otherwise append at the end. -/
def dictUpdate : List (String × String) → String → String → List (String × String)
  | [], k, v => [(k, v)]
  | (k', v') :: rest, k, v =>
      if k' = k then (k, v) :: rest else (k', v') :: dictUpdate rest k v

/-- Python `dict` lookup `d[k]`: value at the first (unique) matching key. -/
def dictLookup : List (String × String) → String → Option String
  | [], _ => none
  | (k', v') :: rest, k => if k' = k then some v' else dictLookup rest k

structure SafeTransaction where
  data : SafeTransactionData
  signatures : List (String × String) := []
  deriving Repr, DecidableEq

/-- `SafeTransaction.add_signature` (types.py lines 89-90):
`self.signatures[owner] = signature`, with no normalization of `owner`. -/
def SafeTransaction.add_signature (tx : SafeTransaction) (owner signature : String) :
    SafeTransaction :=
  { tx with signatures := dictUpdate tx.signatures owner signature }

/-- Stable insertion of `x` into `l`, placing `x` before the first element
whose key is not smaller: the building block of a stable ascending sort. -/
def insertByKey (key : String → Nat) (x : String) : List String → List String
  | [] => [x]
  | y :: ys => if key y < key x then y :: insertByKey key x ys else x :: y :: ys

/-- Model of Python's `sorted(l, key=key)`: a stable ascending sort
(implemented as stable insertion sort, extensionally equal to any stable
sort and in particular to Python's). -/
def sortedByKey (key : String → Nat) (l : List String) : List String :=
  l.foldr (insertByKey key) []

/-- `SafeTransaction.sorted_signatures_bytes` (types.py lines 92-101):
sort the keys of the signature map by `int(owner, 16)`, then concatenate
`HexBytes(self.signatures[owner])` in that order.  A lookup never misses
(keys come from the map itself) and the stored signatures are valid hex
strings, so the `Option` defaults are never taken on reachable inputs. -/
def sigBytesOf (signatures : List (String × String)) : List Nat :=
  (sortedByKey hexStrToNat (signatures.map Prod.fst)).flatMap (fun owner =>
    (hexDecode? ((dictLookup signatures owner).getD "")).getD [])

@[reducible] def SafeTransaction.sorted_signatures_bytes (tx : SafeTransaction) : List Nat :=
  sigBytesOf tx.signatures

/-! ## EIP-712 typed data (`SafeTransactionData.get_eip712_data`, types.py 39-78) -/

structure Eip712Field where
  name : String
  fieldType : String
  deriving Repr, DecidableEq

structure Eip712Domain where
  chainId : Int
  verifyingContract : String
  deriving Repr, DecidableEq

structure SafeTxMessage where
  «to» : String
  value : Int
  data : List Nat
  operation : Int
  safeTxGas : Int
  baseGas : Int
  gasPrice : Int
  gasToken : String
  refundReceiver : String
  nonce : Int
  deriving Repr, DecidableEq

structure Eip712Doc where
  types : List (String × List Eip712Field)
  primaryType : String
  domain : Eip712Domain
  message : SafeTxMessage
  deriving Repr, DecidableEq

/-- `SafeTransactionData.get_eip712_data` (types.py lines 39-78).  The only
fallible step is `HexBytes(self.data)` in the message, which raises on a
malformed hex string; everything else is literal construction. -/
def SafeTransactionData.get_eip712_data (d : SafeTransactionData) (chain_id : Int)
    (safe_address : String) : Except String Eip712Doc :=
  match hexDecode? d.data with
  | none => .error "ValueError: invalid hex in data"
  | some dataBytes => .ok
      { types := [
          ("EIP712Domain", [⟨"chainId", "uint256"⟩, ⟨"verifyingContract", "address"⟩]),
          ("SafeTx", [
            ⟨"to", "address"⟩,
            ⟨"value", "uint256"⟩,
            ⟨"data", "bytes"⟩,
            ⟨"operation", "uint8"⟩,
            ⟨"safeTxGas", "uint256"⟩,
            ⟨"baseGas", "uint256"⟩,
            ⟨"gasPrice", "uint256"⟩,
            ⟨"gasToken", "address"⟩,
            ⟨"refundReceiver", "address"⟩,
            ⟨"nonce", "uint256"⟩])],
        primaryType := "SafeTx",
        domain := ⟨chain_id, safe_address⟩,
        message := ⟨d.«to», d.value, dataBytes, d.operation, d.safe_tx_gas, d.base_gas,
          d.gas_price, d.gas_token, d.refund_receiver,
          match d.nonce with | some n => n | none => 0⟩ }

/-! ## MultiSend batch encoding (`safe_kit/multisend.py`) -/

/-- Body of the loop in `MultiSend.encode_transactions` (multisend.py
lines 22-39) for one transaction, with the source's evaluation order:
`int(tx.operation).to_bytes(1, "big")` (OverflowError when negative or
≥ 256), then `HexBytes(tx.to)` and the 20-byte length check
(`ValueError("Invalid address length for ...")`), then
`int(tx.value).to_bytes(32, "big")`, then `HexBytes(tx.data)` and its
length. -/
def encodeTx (tx : SafeTransactionData) : Except String (List Nat) :=
  if 0 ≤ tx.operation ∧ tx.operation < 256 then
    let operation := natToBE 1 tx.operation.toNat
    match hexDecode? tx.«to» with
    | none => .error ("ValueError: non-hexadecimal to " ++ tx.«to»)
    | some to_address =>
      if to_address.length = 20 then
        if 0 ≤ tx.value ∧ tx.value < (2:Int) ^ 256 then
          let value := natToBE 32 tx.value.toNat
          match hexDecode? tx.data with
          | none => .error ("ValueError: non-hexadecimal data " ++ tx.data)
          | some data =>
            if data.length < 256 ^ 32 then
              let data_length := natToBE 32 data.length
              .ok (operation ++ to_address ++ value ++ data_length ++ data)
            else .error "OverflowError: data length does not fit in 32 bytes"
        else .error "OverflowError: value does not fit in 32 bytes"
      else .error ("Invalid address length for " ++ tx.«to»)
  else .error "OverflowError: operation does not fit in 1 byte"

/-- `MultiSend.encode_transactions` (multisend.py lines 11-41): concatenate
the per-transaction records in sequence order; the first failing
transaction aborts the whole encoding (the Python loop raises there). -/
def encode_transactions : List SafeTransactionData → Except String (List Nat)
  | [] => .ok []
  | tx :: rest =>
      match encodeTx tx with
      | .error e => .error e
      | .ok r =>
          match encode_transactions rest with
          | .error e => .error e
          | .ok rs => .ok (r ++ rs)

/-- Well-formedness of one transaction for batch encoding: `operation`
fits one byte, `to` decodes to exactly 20 bytes, `value` fits 32 bytes,
`data` is a valid hex string. -/
def validForEncode (tx : SafeTransactionData) : Bool :=
  decide (0 ≤ tx.operation) && decide (tx.operation < 256) &&
  (match hexDecode? tx.«to» with
   | some a => decide (a.length = 20)
   | none => false) &&
  decide (0 ≤ tx.value) && decide (tx.value < (2:Int) ^ 256) &&
  (match hexDecode? tx.data with
   | some d => decide (d.length < 256 ^ 32)
   | none => false)

/-- In-range fields apart from the address-length requirement: `operation`
fits one byte, `value` fits 32 bytes, `data` is valid hex of bounded
length, and `to` is at least a hex string. -/
def rangeValid (tx : SafeTransactionData) : Bool :=
  decide (0 ≤ tx.operation) && decide (tx.operation < 256) &&
  decide (0 ≤ tx.value) && decide (tx.value < (2:Int) ^ 256) &&
  (match hexDecode? tx.data with
   | some d => decide (d.length < 256 ^ 32)
   | none => false) &&
  (hexDecode? tx.«to»).isSome

/-- The record the specification describes for one call:
1 byte call-kind ++ 20 bytes target address ++ 32 bytes big-endian value ++
32 bytes big-endian length-of-data ++ raw data bytes. -/
def specRecord (tx : SafeTransactionData) : List Nat :=
  natToBE 1 tx.operation.toNat ++ ((hexDecode? tx.«to»).getD []) ++
    natToBE 32 tx.value.toNat ++ natToBE 32 ((hexDecode? tx.data).getD []).length ++
    ((hexDecode? tx.data).getD [])

/-- Modelled from the spec: a MultiSend decoder is not part of the source
(`multisend.py` only encodes); the spec's round-trip property defines
decoding as "walking the same rule": read 1 byte operation, 20 bytes
address, 32 bytes big-endian value, 32 bytes big-endian data length, then
that many data bytes, repeating until the blob is exhausted.  The `fuel`
argument (one unit per record) only makes the recursion structural; it is
always sufficient when it is at least the number of records. -/
def decodeMultiSendFuel : Nat → List Nat → Option (List (Nat × List Nat × Nat × List Nat))
  | _, [] => some []
  | 0, _ :: _ => none
  | fuel + 1, operation :: rest =>
      if 84 ≤ rest.length then
        let to_address := rest.take 20
        let value := beToNat ((rest.drop 20).take 32)
        let data_length := beToNat ((rest.drop 52).take 32)
        let tail := rest.drop 84
        if data_length ≤ tail.length then
          match decodeMultiSendFuel fuel (tail.drop data_length) with
          | some txs => some ((operation, to_address, value, tail.take data_length) :: txs)
          | none => none
        else none
      else none

/-- Decoder at adequate fuel (one record consumes at least 85 bytes, so
`blob.length` records never run out). -/
def decodeMultiSend (blob : List Nat) : Option (List (Nat × List Nat × Nat × List Nat)) :=
  decodeMultiSendFuel blob.length blob

/-! ## Safe account facade (`safe_kit/safe.py`) -/

/-- Sentinel address heading the on-chain owner/module linked lists
(safe.py line 185, line 303). -/
def SENTINEL : String := "0x0000000000000000000000000000000000000001"

/-- Python's `list.index`: position of the first occurrence, `none`
(where Python raises `ValueError`) when absent. -/
def listIndex : List String → String → Option Nat
  | [], _ => none
  | x :: xs, y => if x = y then some 0 else (listIndex xs y).map (· + 1)

/-- `Safe._get_previous_owner` (safe.py lines 177-186), as a function of
the current full ordered owner list (the source reads it from the chain
via `get_owners`): sentinel when the target is first, the preceding entry
otherwise, an error when the target is absent.
`ModuleManagerMixin.create_disable_module_transaction`
(managers/module_manager.py lines 62-85) inlines the same resolution over
the module list. -/
def _get_previous_owner (owners : List String) (owner : String) : Except String String :=
  match listIndex owners owner with
  | none => .error ("Address " ++ owner ++ " is not an owner")
  | some 0 => .ok SENTINEL
  | some (i + 1) =>
      match owners[i]? with
      | some prev => .ok prev
      | none => .error "IndexError"

/-- Recovery-id adjustment on the `eth_sign` branch of
`Safe.sign_transaction` (safe.py lines 105-110): split the 65-byte
signature as `r = sig[:32]`, `s = sig[32:64]`, `v = sig[64]` (IndexError
when shorter than 65 bytes), then rebuild `r + s + bytes([v + 4])`
(`bytes([...])` raises `ValueError` when `v + 4 > 255`). -/
def adjustVForEthSign (sig : List Nat) : Except String (List Nat) :=
  let r := sig.take 32
  let s := (sig.drop 32).take 32
  match (sig.drop 64).head? with
  | none => .error "IndexError: index out of range"
  | some v =>
      if v + 4 < 256 then .ok (r ++ s ++ [v + 4])
      else .error "ValueError: bytes must be in range(0, 256)"

/-- `Safe.create_transaction` (safe.py lines 70-79).  `chain_nonce` is the
value `self.get_nonce()` would return (the only possible on-chain read).
The result is a triple (post-call state of the caller's
`transaction_data` object — the assignment on line 77 mutates it in
place —, the returned `SafeTransaction`, number of on-chain reads
performed).  Pydantic keeps the passed model instance as-is, so the
returned transaction's `data` is that same object. -/
def create_transaction (chain_nonce : Int) (transaction_data : SafeTransactionData) :
    SafeTransactionData × SafeTransaction × Nat :=
  match transaction_data.nonce with
  | none =>
      let mutated := { transaction_data with nonce := some chain_nonce }
      (mutated, { data := mutated, signatures := [] }, 1)
  | some _ =>
      (transaction_data, { data := transaction_data, signatures := [] }, 0)

/-! ## Adapter and Safe construction (`safe_kit/adapter.py`, `Safe.__init__`) -/

/-- The chain state the adapter reads from: deployed bytecode per address
(`web3.eth.get_code`). -/
structure EthWorld where
  code : String → List Nat

/-- `Web3Adapter.is_contract` (adapter.py lines 135-137): the target hosts
contract code iff `get_code` returns a non-empty byte string. -/
def is_contract (w : EthWorld) (address : String) : Bool :=
  decide (0 < (w.code address).length)

/-- Syntactic address validity enforced by `web3.to_checksum_address`
inside `get_safe_contract` (adapter.py lines 81-86): `0x` followed by 40
hex digits (any casing; web3 re-checksums it). -/
def isHexAddress (address : String) : Bool :=
  match address.data with
  | '0' :: 'x' :: digits =>
      decide (digits.length = 40) && digits.all (fun c => (hexDigitVal? c).isSome)
  | _ => false

/-- The state `Safe.__init__` (safe.py lines 16-19) establishes. -/
structure SafeState where
  safe_address : String
  deriving Repr, DecidableEq

/-- `Safe.__init__` (safe.py lines 16-26, including the `create` class
method): stores the adapter and address and builds the contract handle via
`get_safe_contract`, whose only fallible step is address checksumming.  It
performs no `get_code` / `is_contract` check: the world's bytecode is
never consulted. -/
def safeInit (_w : EthWorld) (safe_address : String) : Except String SafeState :=
  if isHexAddress safe_address then .ok { safe_address := safe_address }
  else .error ("ValueError: bad address " ++ safe_address)

/-! ## Deployment address prediction (`safe_kit/factory.py`) -/

/-- `SafeAccountConfig` (types.py lines 6-18). -/
structure SafeAccountConfig where
  owners : List String
  threshold : Int
  «to» : String := "0x0000000000000000000000000000000000000000"
  data : String := "0x"
  fallback_handler : String := "0x0000000000000000000000000000000000000000"
  payment_token : String := "0x0000000000000000000000000000000000000000"
  payment : Int := 0
  payment_receiver : String := "0x0000000000000000000000000000000000000000"
  deriving Repr, DecidableEq

/-- The state a `SafeFactory` instance carries (factory.py lines 21-32). -/
structure SafeFactoryState where
  safe_singleton_address : String
  safe_proxy_factory_address : String
  deriving Repr, DecidableEq

/-- Modelled from the spec: the ABI encoder behind
`SafeFactory._get_initializer_data` (factory.py lines 34-51) lives in the
external web3 library, not in this repository.  Per the spec it
"ABI-encodes the setup call with fields in fixed order: owners, threshold,
to, data, fallbackHandler, paymentToken, payment, paymentReceiver": a pure
function of exactly those config fields, modelled as the field list in
that order. -/
def _get_initializer_data (config : SafeAccountConfig) : List String :=
  config.owners ++ [toString config.threshold, config.«to», config.data,
    config.fallback_handler, config.payment_token, toString config.payment,
    config.payment_receiver]

/-- The exact argument record `predict_safe_address` and
`predict_safe_address_v1_4_1` pass to the proxy-factory contract call
(factory.py lines 61-65 and 79-83). -/
structure CreateProxyArgs where
  _singleton : String
  initializer : List String
  saltNonce : Int
  deriving Repr, DecidableEq

/-- The semantics of an `eth_call` against the proxy factory: given the
chain world, the factory contract address, the entry-point name
(`"createProxyWithNonce"` or `"createChainSpecificProxyWithNonce"`), and
the argument record, the address the factory derives. -/
def FactoryCallSem : Type := EthWorld → String → String → CreateProxyArgs → String

/-- `SafeFactory.predict_safe_address` (factory.py lines 53-69): builds the
initializer from the config and performs one read-only factory call with
exactly `(_singleton, initializer, saltNonce)`; nothing else reaches the
call and no factory state is mutated. -/
def predict_safe_address (ethCall : FactoryCallSem) (w : EthWorld)
    (st : SafeFactoryState) (config : SafeAccountConfig) (salt_nonce : Int) : String :=
  ethCall w st.safe_proxy_factory_address "createProxyWithNonce"
    { _singleton := st.safe_singleton_address,
      initializer := _get_initializer_data config,
      saltNonce := salt_nonce }

/-- `SafeFactory.predict_safe_address_v1_4_1` (factory.py lines 71-89):
identical to `predict_safe_address` except for the chain-specific
entry point. -/
def predict_safe_address_v1_4_1 (ethCall : FactoryCallSem) (w : EthWorld)
    (st : SafeFactoryState) (config : SafeAccountConfig) (salt_nonce : Int) : String :=
  ethCall w st.safe_proxy_factory_address "createChainSpecificProxyWithNonce"
    { _singleton := st.safe_singleton_address,
      initializer := _get_initializer_data config,
      saltNonce := salt_nonce }

/-! ## Concrete example values used by witnesses -/

/-- A well-formed example transaction: 20-byte target, small value,
two data bytes. -/
def txW : SafeTransactionData :=
  { «to» := "0x00000000000000000000000000000000000000aa", value := 5, data := "0x0102" }

/-- An example transaction whose `to` decodes to 2 bytes, not 20. -/
def txBadAddr : SafeTransactionData :=
  { «to» := "0x00aa", value := 5, data := "0x0102" }

/-- An example transaction wrapper with no signatures yet. -/
def txSig0 : SafeTransaction := { data := txW, signatures := [] }

/-- An example deployment configuration. -/
def cfgW : SafeAccountConfig :=
  { owners := ["0x00000000000000000000000000000000000000aa"], threshold := 1 }

/-! ## Helper lemmas: byte encodings -/

theorem natToBE_length (width n : Nat) : (natToBE width n).length = width := by
  induction width generalizing n with
  | zero => rfl
  | succ w ih => simp [natToBE, ih]

theorem beToNat_append_single (l : List Nat) (x : Nat) :
    beToNat (l ++ [x]) = beToNat l * 256 + x := by
  induction l with
  | nil => simp [beToNat]
  | cons b bs ih =>
      simp only [List.cons_append, beToNat, ih, List.append_eq, List.length_append,
        List.length_cons, List.length_nil, pow_succ]
      ring

theorem beToNat_natToBE (width n : Nat) : beToNat (natToBE width n) = n % 256 ^ width := by
  induction width generalizing n with
  | zero => simp [natToBE, beToNat, Nat.mod_one]
  | succ w ih =>
      rw [natToBE, beToNat_append_single, ih]
      conv_rhs => rw [pow_succ', Nat.mod_mul]
      ring

theorem beToNat_natToBE_of_lt {width n : Nat} (h : n < 256 ^ width) :
    beToNat (natToBE width n) = n := by
  rw [beToNat_natToBE, Nat.mod_eq_of_lt h]

/-! ## Helper lemmas: batch encoding -/

theorem validForEncode_iff (tx : SafeTransactionData) :
    validForEncode tx = true ↔
      (0 ≤ tx.operation ∧ tx.operation < 256) ∧
      (∃ a, hexDecode? tx.«to» = some a ∧ a.length = 20) ∧
      (0 ≤ tx.value ∧ tx.value < (2:Int) ^ 256) ∧
      (∃ d, hexDecode? tx.data = some d ∧ d.length < 256 ^ 32) := by
  unfold validForEncode
  rcases hto : hexDecode? tx.«to» with _ | a <;>
    rcases hd : hexDecode? tx.data with _ | d <;>
      simp [hto, hd, and_assoc]

theorem encodeTx_ok_of_valid {tx : SafeTransactionData} (h : validForEncode tx = true) :
    encodeTx tx = .ok (specRecord tx) := by
  rcases (validForEncode_iff tx).1 h with ⟨hop, ⟨a, hto, ha20⟩, hv, ⟨d, hd, hdl⟩⟩
  unfold encodeTx
  rw [if_pos hop, hto]
  simp only [hd]
  rw [if_pos ha20, if_pos hv, if_pos hdl]
  simp only [specRecord, hto, hd, Option.getD_some]

theorem specRecord_length {tx : SafeTransactionData} (h : validForEncode tx = true) :
    (specRecord tx).length = 85 + ((hexDecode? tx.data).getD []).length := by
  rcases (validForEncode_iff tx).1 h with ⟨_, ⟨a, hto, ha20⟩, _, ⟨d, hd, _⟩⟩
  simp only [specRecord, hto, hd, Option.getD_some, List.length_append, natToBE_length,
    ha20]

theorem encode_transactions_ok {txs : List SafeTransactionData}
    (h : ∀ tx ∈ txs, validForEncode tx = true) :
    encode_transactions txs = .ok (txs.flatMap specRecord) := by
  induction txs with
  | nil => rfl
  | cons tx rest ih =>
      have h1 := h tx (List.mem_cons_self tx rest)
      have h2 : ∀ t ∈ rest, validForEncode t = true :=
        fun t ht => h t (List.mem_cons_of_mem tx ht)
      simp [encode_transactions, encodeTx_ok_of_valid h1, ih h2, List.flatMap_cons]

theorem rangeValid_iff (tx : SafeTransactionData) :
    rangeValid tx = true ↔
      (0 ≤ tx.operation ∧ tx.operation < 256) ∧
      (0 ≤ tx.value ∧ tx.value < (2:Int) ^ 256) ∧
      (∃ d, hexDecode? tx.data = some d ∧ d.length < 256 ^ 32) ∧
      (∃ a, hexDecode? tx.«to» = some a) := by
  unfold rangeValid
  rcases hto : hexDecode? tx.«to» with _ | a <;>
    rcases hd : hexDecode? tx.data with _ | d <;>
      simp [hto, hd, and_assoc]

theorem encodeTx_error_of_bad_address {tx : SafeTransactionData} {a : List Nat}
    (hop : 0 ≤ tx.operation ∧ tx.operation < 256)
    (hto : hexDecode? tx.«to» = some a) (hbad : a.length ≠ 20) :
    encodeTx tx = .error ("Invalid address length for " ++ tx.«to») := by
  simp [encodeTx, hop.1, hop.2, hto, hbad]

theorem valid_of_range_and_addr {tx : SafeTransactionData} {a : List Nat}
    (hr : rangeValid tx = true) (hto : hexDecode? tx.«to» = some a)
    (h20 : a.length = 20) : validForEncode tx = true := by
  rcases (rangeValid_iff tx).1 hr with ⟨hop, hv, hd, _⟩
  exact (validForEncode_iff tx).2 ⟨hop, ⟨a, hto, h20⟩, hv, hd⟩

/-! ## Helper lemmas: previous-element resolution -/

theorem listIndex_eq_none {l : List String} {y : String} (h : y ∉ l) :
    listIndex l y = none := by
  induction l with
  | nil => rfl
  | cons x xs ih =>
      simp only [List.mem_cons, not_or] at h
      rw [listIndex, if_neg (fun he => h.1 he.symm), ih h.2]
      rfl

theorem listIndex_of_get {l : List String} {y : String} (hn : l.Nodup) {i : Nat}
    (hi : i < l.length) (h : l.get ⟨i, hi⟩ = y) : listIndex l y = some i := by
  induction l generalizing i with
  | nil => exact absurd hi (by simp)
  | cons x xs ih =>
      rcases i with _ | j
      · simp only [List.get] at h
        simp [listIndex, h]
      · have hi' : j < xs.length := Nat.lt_of_succ_lt_succ (by simpa using hi)
        have h' : xs.get ⟨j, hi'⟩ = y := by simpa using h
        have hmem : y ∈ xs := by
          rw [← h']
          exact xs.get_mem _ _
        have hxney : x ≠ y := fun he => (List.nodup_cons.1 hn).1 (he ▸ hmem)
        simp [listIndex, hxney, ih (List.nodup_cons.1 hn).2 hi' h']

/-! ## Helper lemmas: dictionaries -/

theorem dictUpdate_of_not_mem {m : List (String × String)} {k : String} (v : String)
    (h : k ∉ m.map Prod.fst) : dictUpdate m k v = m ++ [(k, v)] := by
  induction m with
  | nil => rfl
  | cons p rest ih =>
      obtain ⟨k', v'⟩ := p
      simp only [List.map_cons, List.mem_cons, not_or] at h
      simp [dictUpdate, h.1, ih h.2, Ne.symm h.1]

theorem dictUpdate_append_left {m : List (String × String)} {k : String}
    (t : List (String × String)) (v : String) (h : k ∈ m.map Prod.fst) :
    dictUpdate (m ++ t) k v = dictUpdate m k v ++ t := by
  induction m with
  | nil => simp at h
  | cons p rest ih =>
      obtain ⟨k', v'⟩ := p
      by_cases hk : k' = k
      · simp [dictUpdate, hk]
      · simp only [List.map_cons, List.mem_cons] at h
        rcases h with h | h
        · exact absurd h.symm hk
        · simp [dictUpdate, hk, ih h]

theorem dictUpdate_keys_of_mem {m : List (String × String)} {k : String} (v : String)
    (h : k ∈ m.map Prod.fst) : (dictUpdate m k v).map Prod.fst = m.map Prod.fst := by
  induction m with
  | nil => simp at h
  | cons p rest ih =>
      obtain ⟨k', v'⟩ := p
      by_cases hk : k' = k
      · simp [dictUpdate, hk]
      · simp only [List.map_cons, List.mem_cons] at h
        rcases h with h | h
        · exact absurd h.symm hk
        · simp [dictUpdate, hk, ih h]

theorem dictUpdate_comm {m : List (String × String)} {a b : String} (sa sb : String)
    (ha : a ∈ m.map Prod.fst) (hb : b ∈ m.map Prod.fst) (hne : a ≠ b) :
    dictUpdate (dictUpdate m a sa) b sb = dictUpdate (dictUpdate m b sb) a sa := by
  induction m with
  | nil => simp at ha
  | cons p rest ih =>
      obtain ⟨k', v'⟩ := p
      by_cases hka : k' = a
      · subst hka
        simp [dictUpdate, hne, Ne.symm hne]
      · by_cases hkb : k' = b
        · subst hkb
          simp [dictUpdate, hne, Ne.symm hne, hka]
        · have ha' : a ∈ rest.map Prod.fst := by
            simp only [List.map_cons, List.mem_cons] at ha
            rcases ha with h | h
            · exact absurd h.symm hka
            · exact h
          have hb' : b ∈ rest.map Prod.fst := by
            simp only [List.map_cons, List.mem_cons] at hb
            rcases hb with h | h
            · exact absurd h.symm hkb
            · exact h
          simp [dictUpdate, hka, hkb, ih ha' hb']

theorem dictUpdate_same (m : List (String × String)) (k s1 s2 : String) :
    dictUpdate (dictUpdate m k s1) k s2 = dictUpdate m k s2 := by
  induction m with
  | nil => simp [dictUpdate]
  | cons p rest ih =>
      obtain ⟨k', v'⟩ := p
      by_cases hk : k' = k
      · simp [dictUpdate, hk]
      · simp [dictUpdate, hk, ih]

theorem dictLookup_dictUpdate_self (m : List (String × String)) (k v : String) :
    dictLookup (dictUpdate m k v) k = some v := by
  induction m with
  | nil => simp [dictUpdate, dictLookup]
  | cons p rest ih =>
      obtain ⟨k', v'⟩ := p
      by_cases hk : k' = k
      · simp [dictUpdate, dictLookup, hk]
      · simp [dictUpdate, dictLookup, hk, ih]

theorem dictLookup_append (m t : List (String × String)) (k : String) :
    dictLookup (m ++ t) k =
      match dictLookup m k with
      | some v => some v
      | none => dictLookup t k := by
  induction m with
  | nil => simp [dictLookup]
  | cons p rest ih =>
      obtain ⟨k', v'⟩ := p
      by_cases hk : k' = k
      · simp [dictLookup, hk]
      · simp [dictLookup, hk, ih]

theorem dictUpdate_keys_nodup {m : List (String × String)} {k : String} (v : String)
    (h : (m.map Prod.fst).Nodup) : ((dictUpdate m k v).map Prod.fst).Nodup := by
  by_cases hk : k ∈ m.map Prod.fst
  · rwa [dictUpdate_keys_of_mem v hk]
  · rw [dictUpdate_of_not_mem v hk]
    simp only [List.map_append, List.map_cons, List.map_nil]
    exact List.Nodup.append h (List.nodup_singleton k) (by
      intro x hx hx'
      simp only [List.mem_singleton] at hx'
      exact hk (hx' ▸ hx))

/-! ## Helper lemmas: the stable sort -/

theorem mem_insertByKey (key : String → Nat) (x a : String) (l : List String) :
    a ∈ insertByKey key x l ↔ a = x ∨ a ∈ l := by
  induction l with
  | nil => simp [insertByKey]
  | cons y ys ih =>
      by_cases h : key y < key x
      · simp only [insertByKey, if_pos h, List.mem_cons, ih]
        tauto
      · simp only [insertByKey, if_neg h, List.mem_cons]

theorem insertByKey_perm (key : String → Nat) (x : String) (l : List String) :
    List.Perm (insertByKey key x l) (x :: l) := by
  induction l with
  | nil => simp [insertByKey]
  | cons y ys ih =>
      by_cases h : key y < key x
      · simp only [insertByKey, if_pos h]
        exact (ih.cons y).trans (List.Perm.swap x y ys)
      · simp [insertByKey, if_neg h]

theorem sortedByKey_perm (key : String → Nat) (l : List String) :
    List.Perm (sortedByKey key l) l := by
  induction l with
  | nil => simp [sortedByKey]
  | cons x xs ih =>
      have : sortedByKey key (x :: xs) = insertByKey key x (sortedByKey key xs) := rfl
      rw [this]
      exact (insertByKey_perm key x (sortedByKey key xs)).trans (ih.cons x)

theorem pairwise_insertByKey (key : String → Nat) (x : String) {l : List String}
    (h : l.Pairwise (fun u v => key u ≤ key v)) :
    (insertByKey key x l).Pairwise (fun u v => key u ≤ key v) := by
  induction l with
  | nil => simp [insertByKey]
  | cons y ys ih =>
      rw [List.pairwise_cons] at h
      by_cases hk : key y < key x
      · simp only [insertByKey, if_pos hk, List.pairwise_cons]
        refine ⟨?_, ih h.2⟩
        intro z hz
        rcases (mem_insertByKey key x z ys).1 hz with hz | hz
        · exact hz ▸ le_of_lt hk
        · exact h.1 z hz
      · simp only [insertByKey, if_neg hk, List.pairwise_cons]
        refine ⟨?_, h.1, h.2⟩
        intro z hz
        rcases List.mem_cons.1 hz with hz | hz
        · exact hz ▸ le_of_not_lt hk
        · exact le_trans (le_of_not_lt hk) (h.1 z hz)

theorem sortedByKey_pairwise (key : String → Nat) (l : List String) :
    (sortedByKey key l).Pairwise (fun u v => key u ≤ key v) := by
  induction l with
  | nil => simp [sortedByKey]
  | cons x xs ih => exact pairwise_insertByKey key x ih

theorem sortedByKey_append (key : String → Nat) (l t : List String) :
    sortedByKey key (l ++ t) = l.foldr (insertByKey key) (sortedByKey key t) := by
  unfold sortedByKey
  exact List.foldr_append _ _ l t

theorem flatMap_congr {α β : Type} {l : List α} {f g : α → List β}
    (h : ∀ x ∈ l, f x = g x) : l.flatMap f = l.flatMap g := by
  induction l with
  | nil => rfl
  | cons x xs ih =>
      simp only [List.flatMap_cons, h x (List.mem_cons_self x xs),
        ih (fun y hy => h y (List.mem_cons_of_mem x hy))]

theorem sigBytesOf_insert_comm (m : List (String × String)) (a b sa sb : String)
    (hab : hexStrToNat a < hexStrToNat b) :
    sigBytesOf (dictUpdate (dictUpdate m a sa) b sb) =
      sigBytesOf (dictUpdate (dictUpdate m b sb) a sa) := by
  have hne : a ≠ b := fun h => absurd hab (by rw [h]; exact lt_irrefl _)
  by_cases ha : a ∈ m.map Prod.fst <;> by_cases hb : b ∈ m.map Prod.fst
  · rw [dictUpdate_comm sa sb ha hb hne]
  · have h1 : dictUpdate (dictUpdate m a sa) b sb = dictUpdate m a sa ++ [(b, sb)] :=
      dictUpdate_of_not_mem sb (by rw [dictUpdate_keys_of_mem sa ha]; exact hb)
    have h2 : dictUpdate (dictUpdate m b sb) a sa = dictUpdate m a sa ++ [(b, sb)] := by
      rw [dictUpdate_of_not_mem sb hb, dictUpdate_append_left _ sa ha]
    rw [h1, h2]
  · have h1 : dictUpdate (dictUpdate m a sa) b sb = dictUpdate m b sb ++ [(a, sa)] := by
      rw [dictUpdate_of_not_mem sa ha, dictUpdate_append_left _ sb hb]
    have h2 : dictUpdate (dictUpdate m b sb) a sa = dictUpdate m b sb ++ [(a, sa)] :=
      dictUpdate_of_not_mem sa (by rw [dictUpdate_keys_of_mem sb hb]; exact ha)
    rw [h1, h2]
  · have hb' : b ∉ (m ++ [(a, sa)]).map Prod.fst := by
      simp only [List.map_append, List.map_cons, List.map_nil, List.mem_append,
        List.mem_singleton]
      rintro (h | h)
      · exact hb h
      · exact hne h.symm
    have ha' : a ∉ (m ++ [(b, sb)]).map Prod.fst := by
      simp only [List.map_append, List.map_cons, List.map_nil, List.mem_append,
        List.mem_singleton]
      rintro (h | h)
      · exact ha h
      · exact hne h
    have h1 : dictUpdate (dictUpdate m a sa) b sb = m ++ [(a, sa), (b, sb)] := by
      rw [dictUpdate_of_not_mem sa ha, dictUpdate_of_not_mem sb hb', List.append_assoc]
      rfl
    have h2 : dictUpdate (dictUpdate m b sb) a sa = m ++ [(b, sb), (a, sa)] := by
      rw [dictUpdate_of_not_mem sb hb, dictUpdate_of_not_mem sa ha', List.append_assoc]
      rfl
    rw [h1, h2]
    unfold sigBytesOf
    have hkeys1 : (m ++ [(a, sa), (b, sb)]).map Prod.fst = m.map Prod.fst ++ [a, b] := by
      simp
    have hkeys2 : (m ++ [(b, sb), (a, sa)]).map Prod.fst = m.map Prod.fst ++ [b, a] := by
      simp
    rw [hkeys1, hkeys2, sortedByKey_append, sortedByKey_append]
    have hbase : sortedByKey hexStrToNat [a, b] = sortedByKey hexStrToNat [b, a] := by
      show insertByKey hexStrToNat a (insertByKey hexStrToNat b []) =
        insertByKey hexStrToNat b (insertByKey hexStrToNat a [])
      simp [insertByKey, hab, Nat.lt_asymm hab]
    rw [hbase]
    apply flatMap_congr
    intro o _
    have hlk : dictLookup (m ++ [(a, sa), (b, sb)]) o =
        dictLookup (m ++ [(b, sb), (a, sa)]) o := by
      rw [dictLookup_append, dictLookup_append]
      cases dictLookup m o with
      | some v => rfl
      | none =>
          by_cases hoa : a = o
          · have hob : ¬ b = o := fun h => hne (hoa ▸ h ▸ rfl)
            simp [dictLookup, hoa, hob]
          · by_cases hob : b = o
            · simp [dictLookup, hoa, hob]
            · simp [dictLookup, hoa, hob]
    rw [hlk]

/-! ## Helper lemmas: batch decoding -/

theorem specRecord_ne_nil (tx : SafeTransactionData) : 1 ≤ (specRecord tx).length := by
  simp only [specRecord, List.length_append, natToBE_length]
  omega

theorem length_le_flatMap_specRecord (txs : List SafeTransactionData) :
    txs.length ≤ (txs.flatMap specRecord).length := by
  induction txs with
  | nil => simp
  | cons tx rest ih =>
      simp only [List.flatMap_cons, List.length_append, List.length_cons]
      have := specRecord_ne_nil tx
      omega

theorem decodeFuel_flatMap {txs : List SafeTransactionData} {fuel : Nat}
    (h : ∀ tx ∈ txs, validForEncode tx = true) (hf : txs.length ≤ fuel) :
    decodeMultiSendFuel fuel (txs.flatMap specRecord) =
      some (txs.map (fun tx => (tx.operation.toNat, (hexDecode? tx.«to»).getD [],
        tx.value.toNat, (hexDecode? tx.data).getD []))) := by
  induction txs generalizing fuel with
  | nil =>
      simp only [List.flatMap_nil, List.map_nil]
      cases fuel <;> rfl
  | cons tx rest ih =>
      have hf1 : 1 ≤ fuel := le_trans (by simp) hf
      obtain ⟨fuel', rfl⟩ : ∃ f, fuel = f + 1 := ⟨fuel - 1, by omega⟩
      have h1 := h tx (List.mem_cons_self tx rest)
      have hrest : ∀ t ∈ rest, validForEncode t = true :=
        fun t ht => h t (List.mem_cons_of_mem tx ht)
      have hfr : rest.length ≤ fuel' := by
        simp only [List.length_cons] at hf
        omega
      rcases (validForEncode_iff tx).1 h1 with ⟨hop, ⟨a, hto, ha20⟩, hv, ⟨d, hd, hdl⟩⟩
      have hopn : tx.operation.toNat < 256 := by omega
      have hvn : tx.value.toNat < 256 ^ 32 := by
        have h256 : ((2:Int) ^ 256) = (256:Int) ^ 32 := by norm_num
        have h2 : tx.value < (256:Int) ^ 32 := by rw [← h256]; exact hv.2
        have h3 : (tx.value.toNat : Int) = tx.value := Int.toNat_of_nonneg hv.1
        have h4 : (tx.value.toNat : Int) < (256:Int) ^ 32 := by rw [h3]; exact h2
        exact_mod_cast h4
      have hblob : (tx :: rest).flatMap specRecord =
          tx.operation.toNat :: (a ++ (natToBE 32 tx.value.toNat ++
            (natToBE 32 d.length ++ (d ++ rest.flatMap specRecord)))) := by
        simp only [List.flatMap_cons, specRecord, hto, hd, Option.getD_some]
        simp [natToBE, Nat.mod_eq_of_lt hopn, List.append_assoc]
      rw [hblob]
      have hlen : (a ++ (natToBE 32 tx.value.toNat ++
          (natToBE 32 d.length ++ (d ++ rest.flatMap specRecord)))).length =
          20 + (32 + (32 + (d.length + (rest.flatMap specRecord).length))) := by
        simp [List.length_append, natToBE_length, ha20]
      simp only [decodeMultiSendFuel]
      rw [if_pos (by rw [hlen]; omega)]
      have hdrop20 : (a ++ (natToBE 32 tx.value.toNat ++
          (natToBE 32 d.length ++ (d ++ rest.flatMap specRecord)))).drop 20 =
          natToBE 32 tx.value.toNat ++ (natToBE 32 d.length ++
            (d ++ rest.flatMap specRecord)) := List.drop_left' ha20
      have hdrop52 : (a ++ (natToBE 32 tx.value.toNat ++
          (natToBE 32 d.length ++ (d ++ rest.flatMap specRecord)))).drop 52 =
          natToBE 32 d.length ++ (d ++ rest.flatMap specRecord) := by
        have hsplit : (52:Nat) = 20 + 32 := rfl
        rw [hsplit, ← List.drop_drop, hdrop20]
        exact List.drop_left' (natToBE_length _ _)
      have hdrop84 : (a ++ (natToBE 32 tx.value.toNat ++
          (natToBE 32 d.length ++ (d ++ rest.flatMap specRecord)))).drop 84 =
          d ++ rest.flatMap specRecord := by
        have hsplit : (84:Nat) = 52 + 32 := rfl
        rw [hsplit, ← List.drop_drop, hdrop52]
        exact List.drop_left' (natToBE_length _ _)
      rw [hdrop52, hdrop84, List.take_left' (natToBE_length _ _),
        beToNat_natToBE_of_lt hdl, if_pos (by simp)]
      rw [List.take_left' ha20, hdrop20, List.take_left' (natToBE_length _ _),
        beToNat_natToBE_of_lt hvn, List.take_left' rfl, List.drop_left' rfl,
        ih hrest hfr]
      simp [hto, hd]

/-! ## Claim theorems -/

/-- C3: For every transaction call data with well-formed hex `data`, chain
id and verifying contract address, `get_eip712_data` returns a typed-data
document whose domain is exactly the chain id and verifying contract,
whose primary type `SafeTx` lists its fields in exactly the order `to,
value, data, operation, safeTxGas, baseGas, gasPrice, gasToken,
refundReceiver, nonce`, and whose message uses nonce 0 when the call's
nonce is unset (and the stored nonce when set). -/
theorem c3_get_eip712_data (d : SafeTransactionData) (chain_id : Int)
    (safe_address : String) (bs : List Nat) (h : hexDecode? d.data = some bs) :
    ∃ doc, d.get_eip712_data chain_id safe_address = .ok doc ∧
      doc.domain = ⟨chain_id, safe_address⟩ ∧
      doc.primaryType = "SafeTx" ∧
      (doc.types.lookup "SafeTx").map (fun fs => fs.map Eip712Field.name) =
        some ["to", "value", "data", "operation", "safeTxGas", "baseGas",
              "gasPrice", "gasToken", "refundReceiver", "nonce"] ∧
      (d.nonce = none → doc.message.nonce = 0) ∧
      (∀ n, d.nonce = some n → doc.message.nonce = n) := by
  unfold SafeTransactionData.get_eip712_data
  rw [h]
  refine ⟨_, rfl, rfl, rfl, rfl, ?_, ?_⟩
  · intro hn
    simp [hn]
  · intro n hn
    simp [hn]

/-- Witness for C3 at the concrete transaction `txW` (data `0x0102`,
nonce unset). -/
theorem c3_witness :
    ∃ doc, txW.get_eip712_data 1 "0x0000000000000000000000000000000000000005" =
        .ok doc ∧
      doc.domain = ⟨1, "0x0000000000000000000000000000000000000005"⟩ ∧
      doc.primaryType = "SafeTx" ∧
      (doc.types.lookup "SafeTx").map (fun fs => fs.map Eip712Field.name) =
        some ["to", "value", "data", "operation", "safeTxGas", "baseGas",
              "gasPrice", "gasToken", "refundReceiver", "nonce"] ∧
      (txW.nonce = none → doc.message.nonce = 0) ∧
      (∀ n, txW.nonce = some n → doc.message.nonce = n) :=
  c3_get_eip712_data txW 1 "0x0000000000000000000000000000000000000005" [1, 2] (by decide)

/-- C4: previous-element resolution over a non-empty ordered owner (or
module) list: the sentinel `0x…01` when the target heads the list, the
immediately preceding entry when the target sits at position `i > 0`, a
not-found error when the target is absent. -/
theorem c4_previous_element (l : List String) (owner : String) :
    (owner ∉ l →
      _get_previous_owner l owner =
        .error ("Address " ++ owner ++ " is not an owner")) ∧
    (∀ xs, _get_previous_owner (owner :: xs) owner = .ok SENTINEL) ∧
    (∀ i, ∀ hi : i + 1 < l.length, l.Nodup → l.get ⟨i + 1, hi⟩ = owner →
      _get_previous_owner l owner = .ok (l.get ⟨i, Nat.lt_of_succ_lt hi⟩)) := by
  refine ⟨?_, ?_, ?_⟩
  · intro h
    rw [_get_previous_owner, listIndex_eq_none h]
  · intro xs
    rw [_get_previous_owner]
    simp [listIndex]
  · intro i hi hn hget
    rw [_get_previous_owner, listIndex_of_get hn hi hget]
    simp [List.getElem?_eq_getElem (Nat.lt_of_succ_lt hi)]

/-- Witness for C4 on the concrete three-owner list. -/
theorem c4_witness :
    _get_previous_owner ["0xa1", "0xa2", "0xa3"] "0xa2" = .ok "0xa1" ∧
    _get_previous_owner ["0xa1", "0xa2", "0xa3"] "0xa1" = .ok SENTINEL ∧
    _get_previous_owner ["0xa1", "0xa2", "0xa3"] "0xa9" =
      .error ("Address " ++ "0xa9" ++ " is not an owner") :=
  ⟨(c4_previous_element ["0xa1", "0xa2", "0xa3"] "0xa2").2.2 0 (by decide)
      (by decide) rfl,
    (c4_previous_element ["0xa1", "0xa2", "0xa3"] "0xa1").2.1 ["0xa2", "0xa3"],
    (c4_previous_element ["0xa1", "0xa2", "0xa3"] "0xa9").1 (by decide)⟩

/-- C6: the legacy personal-sign recovery-id adjustment maps a 65-byte
signature `r ‖ s ‖ v` to `r ‖ s ‖ (v + 4)`, leaving `r` and `s` unchanged:
in particular `v = 27` yields `v = 31` and `v = 28` yields `v = 32`. -/
theorem c6_legacy_sign_adjustment (r s : List Nat) (v : Nat)
    (hr : r.length = 32) (hs : s.length = 32) :
    (v + 4 < 256 →
      adjustVForEthSign (r ++ s ++ [v]) = .ok (r ++ s ++ [v + 4])) ∧
    adjustVForEthSign (r ++ s ++ [27]) = .ok (r ++ s ++ [31]) ∧
    adjustVForEthSign (r ++ s ++ [28]) = .ok (r ++ s ++ [32]) := by
  have key : ∀ w, w + 4 < 256 →
      adjustVForEthSign (r ++ s ++ [w]) = .ok (r ++ s ++ [w + 4]) := by
    intro w hw
    have h1 : (r ++ s ++ [w]).take 32 = r := by
      rw [List.append_assoc]
      exact List.take_left' hr
    have h2 : (r ++ s ++ [w]).drop 32 = s ++ [w] := by
      rw [List.append_assoc]
      exact List.drop_left' hr
    have h3 : ((r ++ s ++ [w]).drop 32).take 32 = s := by
      rw [h2]
      exact List.take_left' hs
    have h64 : (r ++ s ++ [w]).drop 64 = [w] :=
      List.drop_left' (by rw [List.length_append, hr, hs])
    simp only [adjustVForEthSign, h64, List.head?_cons, h1, h3]
    rw [if_pos hw]
  exact ⟨key v, key 27 (by omega), key 28 (by omega)⟩

/-- Witness for C6 at concrete `r`, `s` and `v = 27`. -/
theorem c6_witness :
    adjustVForEthSign (List.replicate 32 0 ++ List.replicate 32 1 ++ [27]) =
      .ok (List.replicate 32 0 ++ List.replicate 32 1 ++ [31]) :=
  (c6_legacy_sign_adjustment (List.replicate 32 0) (List.replicate 32 1) 27
    (by simp) (by simp)).2.1

/-- C7: `predict_safe_address` (and the chain-specific v1.4.1 variant)
passes exactly `(singleton, initializer, saltNonce)` to one read-only
factory call and nothing else; given the factory derivation itself is a
deterministic function of those arguments (spec-modelled: the on-chain
CREATE2 derivation is external to this repository), two invocations with
identical inputs yield the identical address, whatever the chain world —
so the prediction is a pure function of the three inputs. -/
theorem c7_predict_deterministic (ethCall : FactoryCallSem)
    (hdet : ∀ w w' fa fn args, ethCall w fa fn args = ethCall w' fa fn args)
    (w w' : EthWorld) (st st' : SafeFactoryState)
    (config config' : SafeAccountConfig) (salt_nonce : Int) :
    (predict_safe_address ethCall w st config salt_nonce =
      predict_safe_address ethCall w' st config salt_nonce) ∧
    (predict_safe_address_v1_4_1 ethCall w st config salt_nonce =
      predict_safe_address_v1_4_1 ethCall w' st config salt_nonce) ∧
    (st.safe_singleton_address = st'.safe_singleton_address →
      st.safe_proxy_factory_address = st'.safe_proxy_factory_address →
      _get_initializer_data config = _get_initializer_data config' →
      predict_safe_address ethCall w st config salt_nonce =
        predict_safe_address ethCall w' st' config' salt_nonce) := by
  refine ⟨hdet w w' _ _ _, hdet w w' _ _ _, ?_⟩
  intro h1 h2 h3
  unfold predict_safe_address
  rw [h1, h2, h3]
  exact hdet w w' _ _ _

/-- Witness for C7: a concrete deterministic factory semantics, two
distinct chain worlds, identical inputs, identical outputs. -/
theorem c7_witness :
    predict_safe_address (fun _ fa fn args => fa ++ fn ++ args._singleton)
        ⟨fun _ => []⟩ ⟨"0xS", "0xF"⟩ cfgW 0 =
      predict_safe_address (fun _ fa fn args => fa ++ fn ++ args._singleton)
        ⟨fun _ => [1]⟩ ⟨"0xS", "0xF"⟩ cfgW 0 :=
  (c7_predict_deterministic (fun _ fa fn args => fa ++ fn ++ args._singleton)
    (fun _ _ _ _ _ => rfl) ⟨fun _ => []⟩ ⟨fun _ => [1]⟩ ⟨"0xS", "0xF"⟩
    ⟨"0xS", "0xF"⟩ cfgW cfgW 0).1

/-- C8 (evaluation at the failing input): in a world whose bytecode is
empty everywhere — `is_contract` is `false` at the target — `Safe.__init__`
nevertheless succeeds: the constructor never consults
`is_contract`/`get_code`, so constructing a Safe bound to a codeless
address does not fail, contrary to the claim. -/
theorem c8_construction_without_code :
    is_contract ⟨fun _ => []⟩ "0x0000000000000000000000000000000000000002" = false ∧
    safeInit ⟨fun _ => []⟩ "0x0000000000000000000000000000000000000002" =
      .ok ⟨"0x0000000000000000000000000000000000000002"⟩ := by
  constructor
  · rfl
  · rfl

/-- C10: `create_transaction` resolves the nonce from the chain exactly
when it is unset (its only on-chain read — zero reads otherwise), leaves
every other field unchanged, and the returned transaction's `data` is the
caller's transaction-data object as mutated in place. -/
theorem c10_create_transaction (chain_nonce : Int) (d : SafeTransactionData) :
    (d.nonce = none →
      (create_transaction chain_nonce d).1.nonce = some chain_nonce ∧
      (create_transaction chain_nonce d).2.2 = 1) ∧
    (∀ k, d.nonce = some k →
      (create_transaction chain_nonce d).1 = d ∧
      (create_transaction chain_nonce d).2.2 = 0) ∧
    ((create_transaction chain_nonce d).2.1.data =
      (create_transaction chain_nonce d).1) ∧
    ((create_transaction chain_nonce d).1.«to» = d.«to» ∧
      (create_transaction chain_nonce d).1.value = d.value ∧
      (create_transaction chain_nonce d).1.data = d.data ∧
      (create_transaction chain_nonce d).1.operation = d.operation ∧
      (create_transaction chain_nonce d).1.safe_tx_gas = d.safe_tx_gas ∧
      (create_transaction chain_nonce d).1.base_gas = d.base_gas ∧
      (create_transaction chain_nonce d).1.gas_price = d.gas_price ∧
      (create_transaction chain_nonce d).1.gas_token = d.gas_token ∧
      (create_transaction chain_nonce d).1.refund_receiver = d.refund_receiver) := by
  rcases hn : d.nonce with _ | k <;>
    simp [create_transaction, hn]

/-- Witness for C10 at `txW` (nonce unset) and chain nonce 7. -/
theorem c10_witness :
    (create_transaction 7 txW).1.nonce = some 7 ∧
    (create_transaction 7 txW).2.2 = 1 :=
  (c10_create_transaction 7 txW).1 rfl

theorem flatMap_specRecord_length {txs : List SafeTransactionData}
    (h : ∀ tx ∈ txs, validForEncode tx = true) :
    (txs.flatMap specRecord).length =
      (txs.map (fun tx =>
        1 + 20 + 32 + 32 + ((hexDecode? tx.data).getD []).length)).sum := by
  induction txs with
  | nil => rfl
  | cons tx rest ih =>
      have h1 := h tx (List.mem_cons_self tx rest)
      have h2 : ∀ t ∈ rest, validForEncode t = true :=
        fun t ht => h t (List.mem_cons_of_mem tx ht)
      simp only [List.flatMap_cons, List.length_append, List.map_cons, List.sum_cons,
        specRecord_length h1, ih h2]

theorem encode_transactions_error_of_bad {txs : List SafeTransactionData}
    (hr : ∀ tx ∈ txs, rangeValid tx = true)
    (hbad : ∃ tx ∈ txs, ∀ a, hexDecode? tx.«to» = some a → a.length ≠ 20) :
    ∃ bad ∈ txs, encode_transactions txs =
      .error ("Invalid address length for " ++ bad.«to») := by
  induction txs with
  | nil =>
      obtain ⟨tx, htx, _⟩ := hbad
      simp at htx
  | cons tx rest ih =>
      have hr1 := hr tx (List.mem_cons_self tx rest)
      rcases (rangeValid_iff tx).1 hr1 with ⟨hop, hv, hdd, ⟨a, hta⟩⟩
      by_cases h20 : a.length = 20
      · have hvalid : validForEncode tx = true := valid_of_range_and_addr hr1 hta h20
        obtain ⟨badtx, hmem, hprop⟩ := hbad
        have hmem' : badtx ∈ rest := by
          rcases List.mem_cons.1 hmem with heq | hm
          · exfalso
            subst heq
            exact hprop a hta h20
          · exact hm
        obtain ⟨bad, hbm, herr⟩ :=
          ih (fun t ht => hr t (List.mem_cons_of_mem tx ht)) ⟨badtx, hmem', hprop⟩
        refine ⟨bad, List.mem_cons_of_mem tx hbm, ?_⟩
        simp [encode_transactions, encodeTx_ok_of_valid hvalid, herr]
      · exact ⟨tx, List.mem_cons_self tx rest,
          by simp [encode_transactions, encodeTx_error_of_bad_address hop hta h20]⟩

/-- C1: for every sequence of calls whose `to` decodes to exactly 20 bytes
(and whose call-kind, value and data fit the record's fixed widths),
`encode_transactions` returns exactly the concatenation, in sequence
order, of the per-call records `1 byte call-kind ++ 20 bytes target ++
32 bytes big-endian value ++ 32 bytes big-endian length-of-data ++ raw
data bytes` — no padding, separators or terminator — so the output length
is the sum over calls of `1+20+32+32+len(data_i)`; and whenever some
call's `to` decodes to a byte string that is not exactly 20 bytes, the
encoding fails with the invalid-address `ValueError`. -/
theorem c1_encode_transactions_layout (txs : List SafeTransactionData) :
    ((∀ tx ∈ txs, validForEncode tx = true) →
      encode_transactions txs = .ok (txs.flatMap specRecord) ∧
      (txs.flatMap specRecord).length =
        (txs.map (fun tx =>
          1 + 20 + 32 + 32 + ((hexDecode? tx.data).getD []).length)).sum) ∧
    ((∀ tx ∈ txs, rangeValid tx = true) →
      (∃ tx ∈ txs, ∀ a, hexDecode? tx.«to» = some a → a.length ≠ 20) →
      ∃ bad ∈ txs, encode_transactions txs =
        .error ("Invalid address length for " ++ bad.«to»)) :=
  ⟨fun h => ⟨encode_transactions_ok h, flatMap_specRecord_length h⟩,
   fun hr hbad => encode_transactions_error_of_bad hr hbad⟩

/-- Witness for C1: the valid call `txW` encodes to its record, and the
batch `[txW, txBadAddr]` (second target decodes to 2 bytes) fails with the
invalid-address error. -/
theorem c1_witness :
    (encode_transactions [txW] = .ok ([txW].flatMap specRecord) ∧
      ([txW].flatMap specRecord).length =
        ([txW].map (fun tx =>
          1 + 20 + 32 + 32 + ((hexDecode? tx.data).getD []).length)).sum) ∧
    (∃ bad ∈ [txW, txBadAddr], encode_transactions [txW, txBadAddr] =
      .error ("Invalid address length for " ++ bad.«to»)) :=
  ⟨(c1_encode_transactions_layout [txW]).1 (by decide),
   (c1_encode_transactions_layout [txW, txBadAddr]).2 (by decide)
     ⟨txBadAddr, by decide, by decide⟩⟩

/-- C5: decoding the output of `encode_transactions` by walking the same
layout rule (1 byte operation, 20 bytes address, 32 bytes big-endian
value, 32 bytes big-endian data length, then that many data bytes, until
the blob is exhausted) reconstructs the original sequence of
`(operation, to, value, data)` tuples exactly. -/
theorem c5_multisend_roundtrip (txs : List SafeTransactionData) (blob : List Nat)
    (hv : ∀ tx ∈ txs, validForEncode tx = true)
    (he : encode_transactions txs = .ok blob) :
    decodeMultiSend blob = some (txs.map (fun tx =>
      (tx.operation.toNat, (hexDecode? tx.«to»).getD [], tx.value.toNat,
        (hexDecode? tx.data).getD []))) := by
  have hb := encode_transactions_ok hv
  rw [he] at hb
  simp only [Except.ok.injEq] at hb
  subst hb
  unfold decodeMultiSend
  exact decodeFuel_flatMap hv (length_le_flatMap_specRecord txs)

/-- Witness for C5: round-trip of the concrete one-call batch `[txW]`. -/
theorem c5_witness :
    decodeMultiSend ([txW].flatMap specRecord) = some ([txW].map (fun tx =>
      (tx.operation.toNat, (hexDecode? tx.«to»).getD [], tx.value.toNat,
        (hexDecode? tx.data).getD []))) :=
  c5_multisend_roundtrip [txW] ([txW].flatMap specRecord) (by decide) rfl

/-- C2: `sorted_signatures_bytes` concatenates the stored signatures in
ascending numeric order of the owner address (the sorted owner list is a
permutation of the stored keys, pairwise ordered by `int(owner, 16)`), and
is therefore invariant under insertion order: for owners `a`, `b` with
`a`'s numeric address smaller, adding `a` then `b` produces the same bytes
as adding `b` then `a`. -/
theorem c2_sorted_signatures_invariance (tx : SafeTransaction) (a b sa sb : String)
    (hab : hexStrToNat a < hexStrToNat b) :
    (sortedByKey hexStrToNat (tx.signatures.map Prod.fst)).Pairwise
      (fun x y => hexStrToNat x ≤ hexStrToNat y) ∧
    List.Perm (sortedByKey hexStrToNat (tx.signatures.map Prod.fst))
      (tx.signatures.map Prod.fst) ∧
    ((tx.add_signature a sa).add_signature b sb).sorted_signatures_bytes =
      ((tx.add_signature b sb).add_signature a sa).sorted_signatures_bytes := by
  refine ⟨sortedByKey_pairwise _ _, sortedByKey_perm _ _, ?_⟩
  show sigBytesOf (dictUpdate (dictUpdate tx.signatures a sa) b sb) =
    sigBytesOf (dictUpdate (dictUpdate tx.signatures b sb) a sa)
  exact sigBytesOf_insert_comm tx.signatures a b sa sb hab

/-- Witness for C2 at two concrete owners with ascending numeric
addresses, starting from the empty signature map. -/
theorem c2_witness :
    hexStrToNat "0x0000000000000000000000000000000000000002" <
      hexStrToNat "0x000000000000000000000000000000000000000a" ∧
    SafeTransaction.sorted_signatures_bytes
        (SafeTransaction.add_signature
          (txSig0.add_signature "0x0000000000000000000000000000000000000002" "0x11")
          "0x000000000000000000000000000000000000000a" "0x22") =
      SafeTransaction.sorted_signatures_bytes
        (SafeTransaction.add_signature
          (txSig0.add_signature "0x000000000000000000000000000000000000000a" "0x22")
          "0x0000000000000000000000000000000000000002" "0x11") :=
  ⟨by decide,
   (c2_sorted_signatures_invariance txSig0
     "0x0000000000000000000000000000000000000002"
     "0x000000000000000000000000000000000000000a" "0x11" "0x22" (by decide)).2.2⟩

/-- C9 counterexample: `add_signature` performs no checksumming or case
normalization, so adding a signature for the same owner spelled in two
different hex casings (identical numeric address) produces two distinct
map entries — refuting both "at most one signature per owner" and "every
key is a checksummed owner address" under such sequences. -/
theorem c9_counterexample :
    hexStrToNat "0x00000000000000000000000000000000000000AB" =
      hexStrToNat "0x00000000000000000000000000000000000000ab" ∧
    "0x00000000000000000000000000000000000000AB" ≠
      "0x00000000000000000000000000000000000000ab" ∧
    (SafeTransaction.add_signature
        (txSig0.add_signature "0x00000000000000000000000000000000000000AB" "0x11")
        "0x00000000000000000000000000000000000000ab" "0x22").signatures =
      [("0x00000000000000000000000000000000000000AB", "0x11"),
       ("0x00000000000000000000000000000000000000ab", "0x22")] := by
  refine ⟨by decide, by decide, ?_⟩
  rfl

/-- C9 (amended): the signature map keeps at most one entry per exact
owner string — adding a second signature for an identical owner string
overwrites the first (last write wins, no duplicate) and preserves
uniqueness of the string keys; keys are exactly the strings callers pass,
with no checksumming applied. -/
theorem c9_last_write_wins (tx : SafeTransaction) (owner s1 s2 : String) :
    (tx.add_signature owner s1).add_signature owner s2 =
      tx.add_signature owner s2 ∧
    dictLookup (tx.add_signature owner s2).signatures owner = some s2 ∧
    ((tx.signatures.map Prod.fst).Nodup →
      ((tx.add_signature owner s2).signatures.map Prod.fst).Nodup) := by
  refine ⟨?_, ?_, ?_⟩
  · show ({ tx with signatures := dictUpdate (dictUpdate tx.signatures owner s1) owner s2 }
        : SafeTransaction) = { tx with signatures := dictUpdate tx.signatures owner s2 }
    rw [dictUpdate_same]
  · exact dictLookup_dictUpdate_self tx.signatures owner s2
  · intro h
    exact dictUpdate_keys_nodup s2 h

/-- Witness for C9 (amended) at a concrete owner added twice. -/
theorem c9_witness :
    SafeTransaction.add_signature
        (txSig0.add_signature "0x00000000000000000000000000000000000000AB" "0x11")
        "0x00000000000000000000000000000000000000AB" "0x22" =
      txSig0.add_signature "0x00000000000000000000000000000000000000AB" "0x22" ∧
    ((txSig0.add_signature "0x00000000000000000000000000000000000000AB" "0x22").signatures.map
      Prod.fst).Nodup :=
  ⟨(c9_last_write_wins txSig0 "0x00000000000000000000000000000000000000AB"
      "0x11" "0x22").1,
   (c9_last_write_wins txSig0 "0x00000000000000000000000000000000000000AB"
      "0x11" "0x22").2.2 (by decide)⟩

end SafeKit
